import Mathlib

/-!
Verification of the view-inverse subsystem (`FunctionalInverses.cpp`) of the
tensor functionalization layer.

Tensors are embedded shallowly as a shape (list of dimension sizes) together
with a total function from multi-indices to element values; only the values at
indices valid for the shape are meaningful.  The external array primitives the
subsystem delegates to (permute, unsqueeze, sum-to-shape, the scatter family,
the complex/real reinterpretations) are modelled from the specification, while
every `*_inverse` function is translated directly from the source file.
-/

abbrev Shape := List Nat

abbrev Idx := List Nat

/-- Modelled from the spec (Axis Normalizer, `c10::maybe_wrap_dim`): wrap a
possibly-negative axis index into `[0, rank)`; a rank of 0 is treated as rank 1
(scalar wrapping), so the accepted inputs are `[-1, 0]`. -/
def wrapDim (dim : Int) (rank : Nat) : Nat :=
  let r : Int := if rank = 0 then 1 else rank
  (if dim < 0 then dim + r else dim).toNat

/-- Modelled from the spec (Axis Normalizer): the axis indices accepted by
`maybe_wrap_dim` for a given rank (rank 0 behaves as rank 1). -/
def wrapValid (dim : Int) (rank : Nat) : Prop :=
  (-(if rank = 0 then 1 else (rank : Int))) ≤ dim ∧
    dim < (if rank = 0 then 1 else (rank : Int))

instance (dim : Int) (rank : Nat) : Decidable (wrapValid dim rank) := by
  unfold wrapValid; exact inferInstance

/-- A tensor value: a shape and a total assignment of element values to
multi-indices (row-major storage is irrelevant at this level; only the values
at shape-valid indices matter). -/
structure Tensor (α : Type) where
  shape : Shape
  data : Idx → α

/-- All valid multi-indices of a shape, in lexicographic order. -/
def allIdx : Shape → List Idx
  | [] => [[]]
  | d :: rest => ((List.range d).map fun i => (allIdx rest).map fun idx => i :: idx).flatten

/-- Row-major linearization of a multi-index. -/
def flattenIdx : Shape → Idx → Nat
  | _ :: rest, i :: is => i * rest.prod + flattenIdx rest is
  | _, _ => 0

/-- Build a concrete tensor from a row-major list of values. -/
def Tensor.ofList (shape : Shape) (xs : List α) (dflt : α) : Tensor α :=
  ⟨shape, fun idx => xs.getD (flattenIdx shape idx) dflt⟩

/-- Extensional tensor equality: equal shapes and equal values at every valid
multi-index. -/
def teq (t u : Tensor α) : Prop :=
  t.shape = u.shape ∧ ∀ idx ∈ allIdx t.shape, t.data idx = u.data idx

instance [DecidableEq α] (t u : Tensor α) : Decidable (teq t u) := by
  unfold teq; exact inferInstance

/-- Boolean extensional tensor equality (for concrete counterexamples). -/
def teqb [BEq α] (t u : Tensor α) : Bool :=
  t.shape == u.shape && (allIdx t.shape).all fun idx => t.data idx == u.data idx

/-- Modelled from the spec (§4.3, external `at::permute`): axis permutation.
`dims` must list every axis exactly once (possibly negatively); entry `i` of
the result shape is the input size at axis `wrap(dims[i])`, and the element at
output index `idx` is the input element at the index `y` with
`y[wrap(dims[i])] = idx[i]`. -/
def Tensor.permute (t : Tensor α) (dims : List Int) : Tensor α :=
  let ws := dims.map fun d => wrapDim d dims.length
  ⟨ws.map fun j => t.shape.getD j 0,
   fun idx => t.data ((List.range dims.length).map fun j => idx.getD (List.indexOf j ws) 0)⟩

/-- Modelled from the spec (§4.4, external `at::unsqueeze`): insert a singleton
axis at position `wrap(dim, rank + 1)`. -/
def Tensor.unsqueeze (t : Tensor α) (dim : Int) : Tensor α :=
  let d := wrapDim dim (t.shape.length + 1)
  ⟨t.shape.insertIdx d 1, fun idx => t.data (idx.eraseIdx d)⟩

/-- Modelled from the spec (§4.6, external forward broadcast expansion
`at::expand`): `sizes` has at least the input rank; input axes are aligned to
the trailing positions, axes of size 1 are broadcast, a `-1` size keeps the
input size. -/
def Tensor.expand (t : Tensor α) (sizes : List Int) : Tensor α :=
  let k := sizes.length - t.shape.length
  ⟨(List.range sizes.length).map fun i =>
      if sizes.getD i (-1) = -1 then t.shape.getD (i - k) 1 else (sizes.getD i (-1)).toNat,
   fun idx => t.data ((List.range t.shape.length).map fun j =>
      if t.shape.getD j 1 = 1 then 0 else idx.getD (j + k) 0)⟩

/-- Modelled from the spec (§4.6, glossary "sum-to-shape", external
`at::sum_to`): reduce a tensor to a target shape by summing away leading extra
axes and summing (keeping size 1) every axis broadcast from 1. The element at
target index `idx` is the sum of the source elements at every valid source
index that projects onto `idx`. -/
def sum_to [Add α] [Zero α] (t : Tensor α) (target : Shape) : Tensor α :=
  let k := t.shape.length - target.length
  ⟨target, fun idx =>
    (((allIdx t.shape).filter fun src =>
        (List.range target.length).all fun j =>
          target.getD j 1 == 1 || src.getD (j + k) 0 == idx.getD j 0).map t.data).sum⟩

/-- Modelled from the spec (§4.5, external `at::slice_scatter`): copy of `base`
in which every coordinate `i` along axis `wrap(dim)` with
`start ≤ i < stop` and `(i - start) % step = 0` is replaced by the patch
element at position `(i - start) / step` along that axis; all other elements
are unchanged. -/
def slice_scatter (base src : Tensor α) (dim start stop step : Int) : Tensor α :=
  let d := wrapDim dim base.shape.length
  ⟨base.shape, fun idx =>
    let i : Int := (idx.getD d 0 : Int)
    if start ≤ i ∧ i < stop ∧ (i - start) % step = 0 then
      src.data (idx.set d ((i - start) / step).toNat)
    else base.data idx⟩

/-- Modelled from the spec (§4.5, external `at::diagonal_scatter`): copy of
`base` in which the `(offset, dim1, dim2)` diagonal (the coordinates `i` at
`wrap(dim1)` and `j` at `wrap(dim2)` with `j - i = offset`) is replaced by
`patch`, indexed by the remaining axes followed by the diagonal position
`min i j`; all other elements are unchanged. -/
def diagonal_scatter (base patch : Tensor α) (offset dim1 dim2 : Int) : Tensor α :=
  let d1 := wrapDim dim1 base.shape.length
  let d2 := wrapDim dim2 base.shape.length
  ⟨base.shape, fun idx =>
    let i : Int := (idx.getD d1 0 : Int)
    let j : Int := (idx.getD d2 0 : Int)
    if j - i = offset then
      patch.data (((idx.eraseIdx (max d1 d2)).eraseIdx (min d1 d2)) ++ [(min i j).toNat])
    else base.data idx⟩

/-- Modelled from the spec (§4.5, external `at::select_scatter`): copy of
`base` whose hyperplane at coordinate `index` along axis `wrap(dim)` is
replaced by `patch` (the patch lacking that axis); elsewhere unchanged. -/
def select_scatter (base patch : Tensor α) (dim index : Int) : Tensor α :=
  let d := wrapDim dim base.shape.length
  ⟨base.shape, fun idx =>
    if (idx.getD d 0 : Int) = index then patch.data (idx.eraseIdx d)
    else base.data idx⟩

/-- Row-major delinearization of a flat position. -/
def unflattenIdx : Shape → Nat → Idx
  | [], _ => []
  | _ :: rest, n => n / rest.prod :: unflattenIdx rest (n % rest.prod)

/-- Modelled from the spec (§4.2, external `at::view`/reshape at value level):
reinterpret the row-major element sequence with a new shape. -/
def Tensor.reshape (t : Tensor α) (newShape : Shape) : Tensor α :=
  ⟨newShape, fun idx => t.data (unflattenIdx t.shape (flattenIdx newShape idx))⟩

/-- Modelled from the spec (§4.2, external `Tensor::_reshape_alias`): a
reshape that additionally receives the strides of the result; the strides
describe memory layout only and do not affect the logical element values, so
at value level this is the reshape. -/
def Tensor._reshape_alias (t : Tensor α) (sizes : Shape) (strides : List Int) : Tensor α :=
  t.reshape sizes

/-- A complex element value (exact Gaussian-integer model of a complex
scalar). -/
structure Cplx where
  re : Int
  im : Int
deriving DecidableEq

/-- Complex conjugation on elements. -/
def cconj (c : Cplx) : Cplx := ⟨c.re, -c.im⟩

instance : Neg Cplx := ⟨fun c => ⟨-c.re, -c.im⟩⟩

/-- Modelled from the spec (§4.1, external `at::view_as_real`): a complex
tensor viewed as a real tensor with a trailing axis of size 2 holding
`(re, im)`. -/
def view_as_real (t : Tensor Cplx) : Tensor Int :=
  ⟨t.shape ++ [2], fun idx =>
    if idx.getD t.shape.length 0 = 0 then (t.data (idx.take t.shape.length)).re
    else (t.data (idx.take t.shape.length)).im⟩

/-- Modelled from the spec (§4.1, external `at::view_as_complex`): a real
tensor whose last axis has size 2 viewed as a complex tensor. -/
def view_as_complex (t : Tensor Int) : Tensor Cplx :=
  ⟨t.shape.dropLast, fun idx => ⟨t.data (idx ++ [0]), t.data (idx ++ [1])⟩⟩

/-- Modelled from the spec (§4.1, external `Tensor::resolve_conj`):
materializes a lazy conjugation bit; at the level of element values it is the
identity. -/
def resolve_conj (t : Tensor α) : Tensor α := t

/-- Modelled from the spec (§4.1, external `Tensor::conj`): elementwise complex
conjugation (value level). -/
def Tensor.conj (t : Tensor Cplx) : Tensor Cplx := ⟨t.shape, fun idx => cconj (t.data idx)⟩

/-- Modelled from the spec (§4.1, external `Tensor::neg`): elementwise
negation. -/
def Tensor.neg [Neg α] (t : Tensor α) : Tensor α := ⟨t.shape, fun idx => -(t.data idx)⟩

/-- Modelled from the spec (§4.2): the contiguous row-major strides of a shape,
standing in for `base.strides()` (the embedded tensors carry no stride
field). -/
def contiguousStrides (s : Shape) : List Int :=
  (List.range s.length).map fun i => ((s.drop (i + 1)).prod : Int)

/- ------------------------------------------------------------------
Translations of the source file `FunctionalInverses.cpp`.
------------------------------------------------------------------ -/

/-- Source lines 14-22: invert the permutation `dims` (writing
`dims_[wrap(dims[i], ndims)] = i` for each `i`) and permute `self` by it. -/
def permute_inverse (self : Tensor α) (dims : List Int) : Tensor α :=
  let ndims := dims.length
  let dims_ := (List.range ndims).foldl
    (fun a i => a.set (wrapDim (dims.getD i 0) ndims) (i : Int))
    (List.replicate ndims 0)
  self.permute dims_

/-- Source lines 36-44: wrap `dim` against `sizes`; unsqueeze `self` at `dim`
only when `sizes` is non-empty and `sizes[dim] == 1`. -/
def unsqueeze_to (self : Tensor α) (dim : Int) (sizes : Shape) : Tensor α :=
  let d := wrapDim dim sizes.length
  if 0 < sizes.length ∧ sizes.getD d 0 = 1 then self.unsqueeze (d : Int) else self

/-- Source lines 70-73: `_fw_primal` is unsupported; unconditional internal
assertion failure (modelled as an error result). -/
def _fw_primal_inverse (base mutated_view : Tensor α) (level : Int) : Except String (Tensor α) :=
  Except.error "Attempted to call _fw_primal() during the functionalization pass. For now, this is not supported."

/-- Source lines 75-77. -/
def view_as_real_inverse (base : Tensor Cplx) (mutated_view : Tensor Int) : Tensor Cplx :=
  view_as_complex mutated_view

/-- Source lines 79-81. -/
def view_as_complex_inverse (base : Tensor Int) (mutated_view : Tensor Cplx) : Tensor Int :=
  view_as_real (resolve_conj mutated_view)

/-- Source lines 83-85. -/
def _conj_inverse (base mutated_view : Tensor Cplx) : Tensor Cplx :=
  mutated_view.conj

/-- Source lines 87-89. -/
def _neg_view_inverse [Neg α] (base mutated_view : Tensor α) : Tensor α :=
  mutated_view.neg

/-- Source lines 91-94: `as_strided` is unsupported; unconditional internal
assertion failure (modelled as an error result). -/
def as_strided_inverse (base mutated_view : Tensor α) (size stride : List Int)
    (storage_offset : Option Int) : Except String (Tensor α) :=
  Except.error "as_strided has not been implemented in the functionalization pass yet"

/-- Source lines 96-98. -/
def diagonal_inverse (base mutated_view : Tensor α) (offset dim1 dim2 : Int) : Tensor α :=
  diagonal_scatter base mutated_view offset dim1 dim2

/-- Source lines 100-102. -/
def expand_inverse [Add α] [Zero α] (base mutated_view : Tensor α) (size : List Int)
    (implicit : Bool) : Tensor α :=
  sum_to mutated_view base.shape

/-- Source lines 104-106. -/
def permute_inverse_view (base mutated_view : Tensor α) (dims : List Int) : Tensor α :=
  permute_inverse mutated_view dims

/-- Source lines 108-110: `mutated_view._reshape_alias(base.sizes(),
base.strides())`, with `base.strides()` rendered as the contiguous strides of
the base shape (the embedded tensors carry no stride field). -/
def _reshape_alias_inverse (base mutated_view : Tensor α) (size stride : List Int) : Tensor α :=
  mutated_view._reshape_alias base.shape (contiguousStrides base.shape)

/-- Source lines 112-114. -/
def select_inverse (base mutated_view : Tensor α) (dim index : Int) : Tensor α :=
  select_scatter base mutated_view dim index

/-- Source lines 115-118. -/
def detach_inverse (base mutated_view : Tensor α) : Tensor α :=
  mutated_view

/-- Source lines 124-135: wrap `dim` against the base rank, compute the
partition `[idx*split_size, idx*split_size + split_size)` clipped to the
dimension size, and slice-scatter the view back with step 1. -/
def split_inverse (base mutated_view : Tensor α) (mutated_view_idx split_size dim : Int) :
    Tensor α :=
  let d := wrapDim dim base.shape.length
  let dim_size : Int := (base.shape.getD d 0 : Int)
  let start := mutated_view_idx * split_size
  let e : Int := start + split_size
  let e2 : Int := if e > dim_size then dim_size else e
  slice_scatter base mutated_view (d : Int) start e2 1

/-- Source lines 137-147: wrap `dim`, accumulate `start` over the sizes before
`mutated_view_idx`, clip `start + split_sizes[idx]` to the dimension size, and
slice-scatter the view back with step 1. -/
def split_with_sizes_inverse (base mutated_view : Tensor α) (mutated_view_idx : Int)
    (split_sizes : List Int) (dim : Int) : Tensor α :=
  let d := wrapDim dim base.shape.length
  let dim_size : Int := (base.shape.getD d 0 : Int)
  let start := (split_sizes.take mutated_view_idx.toNat).foldl (· + ·) 0
  let e : Int := start + split_sizes.getD mutated_view_idx.toNat 0
  let e2 : Int := if e > dim_size then dim_size else e
  slice_scatter base mutated_view (d : Int) start e2 1

/-- Source lines 153-155 (the `squeeze` overload taking an axis). -/
def squeeze_inverse (base mutated_view : Tensor α) (dim : Int) : Tensor α :=
  unsqueeze_to mutated_view dim base.shape

/-- Source lines 169-172: sparse accessor, unsupported. -/
def _indices_inverse (base mutated_view : Tensor α) : Except String (Tensor α) :=
  Except.error "Attempted to call _indices() during the functionalization pass. For now, sparse tensors aren't supported during functionalization"

/-- Source lines 174-177: sparse accessor, unsupported. -/
def _values_inverse (base mutated_view : Tensor α) : Except String (Tensor α) :=
  Except.error "Attempted to call _values() during the functionalization pass. For now, sparse tensors aren't supported during functionalization"

/-- Source lines 179-182: sparse accessor, unsupported. -/
def indices_inverse (base mutated_view : Tensor α) : Except String (Tensor α) :=
  Except.error "Attempted to call indices() during the functionalization pass. For now, sparse tensors aren't supported during functionalization"

/-- Source lines 184-187: sparse accessor, unsupported. -/
def values_inverse (base mutated_view : Tensor α) : Except String (Tensor α) :=
  Except.error "Attempted to call values() during the functionalization pass. For now, sparse tensors aren't supported during functionalization"

/-- Source lines 189-192: sparse accessor, unsupported. -/
def crow_indices_inverse (base mutated_view : Tensor α) : Except String (Tensor α) :=
  Except.error "Attempted to call crow_indices() during the functionalization pass. For now, sparse tensors aren't supported during functionalization"

/-- Source lines 194-197: sparse accessor, unsupported. -/
def col_indices_inverse (base mutated_view : Tensor α) : Except String (Tensor α) :=
  Except.error "Attempted to call col_indices() during the functionalization pass. For now, sparse tensors aren't supported during functionalization"

/-- Source lines 204-206 (the `view` overload taking a shape). -/
def view_inverse (base mutated_view : Tensor α) (size : List Int) : Tensor α :=
  mutated_view.reshape base.shape

/-- Source lines 217-219. -/
def alias_inverse (base mutated_view : Tensor α) : Tensor α :=
  mutated_view

/- ------------------------------------------------------------------
Concrete tensors used by counterexamples and witnesses.
------------------------------------------------------------------ -/

/-- Scalar-per-copy base of shape `(1)` with value 1 (round-trip failing input
for `expand`). -/
def baseOne : Tensor Int := Tensor.ofList [1] [1] 0

/-- Consistently mutated expanded view of shape `(3)`: every aliased broadcast
copy holds the value 1. -/
def mutOnes : Tensor Int := Tensor.ofList [3] [1, 1, 1] 0

/-- A concrete tensor of shape `(1, 2, 3)` (counterexample input for the double
application of `permute_inverse`). -/
def cube123 : Tensor Int := Tensor.ofList [1, 2, 3] [10, 11, 12, 13, 14, 15] 0

/-- The 3-cycle axis permutation `(0 1 2)`. -/
def cycle3 : List Int := [1, 2, 0]

/-- A concrete tensor of shape `(2, 3)` (witness input). -/
def mat23 : Tensor Int := Tensor.ofList [2, 3] [1, 2, 3, 4, 5, 6] 0

/-- A concrete base of shape `(1, 5)` (witness input). -/
def b15 : Tensor Int := Tensor.ofList [1, 5] [0, 0, 0, 0, 0] 0

/-- A concrete mutated expanded view of shape `(3, 5)` holding `0..14`
(witness input). -/
def v35 : Tensor Int := Tensor.ofList [3, 5] ((List.range 15).map Int.ofNat) 0

/-- A concrete base of shape `(10)` holding `0..9` (witness input for the
partition arithmetic). -/
def base10 : Tensor Int := Tensor.ofList [10] ((List.range 10).map Int.ofNat) 0

/-- A concrete partition patch of shape `(3)` (witness input). -/
def patch3 : Tensor Int := Tensor.ofList [3] [200, 201, 202] 0

/- ------------------------------------------------------------------
Helper lemmas.
------------------------------------------------------------------ -/

theorem getD_set_lt (l : List Int) (i : Nat) (v : Int) (h : i < l.length) :
    (l.set i v).getD i 0 = v := by
  rw [List.getD_eq_getElem?_getD, List.getElem?_set_self', List.getElem?_eq_getElem h]
  rfl

theorem getD_set_ne (l : List Int) (i j : Nat) (v : Int) (h : i ≠ j) :
    (l.set i v).getD j 0 = l.getD j 0 := by
  rw [List.getD_eq_getElem?_getD, List.getElem?_set_ne h, ← List.getD_eq_getElem?_getD]

theorem foldl_set_length (W : Nat → Nat) (l : List Nat) (acc : List Int) :
    (l.foldl (fun a i => a.set (W i) (i : Int)) acc).length = acc.length := by
  induction l generalizing acc with
  | nil => rfl
  | cons k t ih => rw [List.foldl_cons, ih, List.length_set]

theorem foldl_set_getD_not_mem (W : Nat → Nat) (l : List Nat) (acc : List Int) (j : Nat)
    (hj : j ∉ l.map W) :
    (l.foldl (fun a i => a.set (W i) (i : Int)) acc).getD j 0 = acc.getD j 0 := by
  induction l generalizing acc with
  | nil => rfl
  | cons k t ih =>
    rw [List.map_cons, List.mem_cons, not_or] at hj
    rw [List.foldl_cons, ih _ hj.2, getD_set_ne _ _ _ _ fun h => hj.1 h.symm]

theorem foldl_set_getD_mem (W : Nat → Nat) (l : List Nat) (acc : List Int) (i : Nat)
    (hi : i ∈ l) (hnd : (l.map W).Nodup) (hlt : W i < acc.length) :
    (l.foldl (fun a k => a.set (W k) (k : Int)) acc).getD (W i) 0 = (i : Int) := by
  induction l generalizing acc with
  | nil => cases hi
  | cons k t ih =>
    rw [List.map_cons, List.nodup_cons] at hnd
    rw [List.foldl_cons]
    rcases List.mem_cons.mp hi with h | h
    · subst h
      rw [foldl_set_getD_not_mem _ _ _ _ hnd.1, getD_set_lt _ _ _ hlt]
    · exact ih (acc.set (W k) (k : Int)) h hnd.2 (by rw [List.length_set]; exact hlt)

theorem getD_map_range (f : Nat → Nat) (n j : Nat) (hj : j < n) (d : Nat) :
    ((List.range n).map f).getD j d = f j := by
  rw [List.getD_eq_getElem _ _ (by simpa using hj), List.getElem_map, List.getElem_range]

theorem getD_map_range_int (f : Nat → Int) (n j : Nat) (hj : j < n) (d : Int) :
    ((List.range n).map f).getD j d = f j := by
  rw [List.getD_eq_getElem _ _ (by simpa using hj), List.getElem_map, List.getElem_range]

theorem map_range_getD_eq_self (l : List Nat) (n : Nat) (h : l.length = n) :
    (List.range n).map (fun j => l.getD j 0) = l := by
  apply List.ext_getElem (by simpa using h.symm)
  intro k h1 h2
  rw [List.getElem_map, List.getElem_range, List.getD_eq_getElem _ _ h2]

theorem map_range_getD_eq_map (l : List Int) (f : Int → Nat) :
    (List.range l.length).map (fun i => f (l.getD i 0)) = l.map f := by
  apply List.ext_getElem (by simp)
  intro k h1 h2
  rw [List.getElem_map, List.getElem_map, List.getElem_range,
    List.getD_eq_getElem _ _ (by simpa using h2)]

theorem length_of_mem_allIdx (s : Shape) (idx : Idx) (h : idx ∈ allIdx s) :
    idx.length = s.length := by
  induction s generalizing idx with
  | nil => simp only [allIdx] at h; simp [List.mem_singleton.mp h]
  | cons d rest ih =>
    simp only [allIdx, List.mem_flatten, List.mem_map] at h
    obtain ⟨l, ⟨i, _, rfl⟩, hidx⟩ := h
    obtain ⟨idx', hidx', rfl⟩ := List.mem_map.mp hidx
    simp [ih idx' hidx']

theorem foldl_add_eq_sum (l : List Int) (a : Int) : l.foldl (· + ·) a = a + l.sum := by
  induction l generalizing a with
  | nil => simp
  | cons x t ih => rw [List.foldl_cons, ih, List.sum_cons]; ring

theorem wrapDim_lt (dim : Int) (rank : Nat) (h0 : rank ≠ 0) (hv : wrapValid dim rank) :
    wrapDim dim rank < rank := by
  unfold wrapValid at hv
  simp only [wrapDim, if_neg h0] at hv ⊢
  split <;> omega

theorem wrapDim_coe (d rank : Nat) : wrapDim (d : Int) rank = d := by
  simp only [wrapDim]
  rw [if_neg (show ¬((d : Int) < 0) by omega)]
  exact Int.toNat_natCast d

/- ------------------------------------------------------------------
Claim theorems.
------------------------------------------------------------------ -/

/-- Claim C1.  The universal round-trip law fails on the code: for the
supported view op `expand` with base `(1)`-tensor holding 1 and the
consistently mutated expanded view `(3)`-tensor holding `[1,1,1]`,
`expand_inverse` (which delegates to sum-to-shape) produces the value 3
(over-counting the three aliased broadcast copies), so replaying `expand` on
the reconstructed base yields `[3,3,3] ≠ [1,1,1]` even though the shapes
agree; the inverse of the *unmutated* view already fails to reproduce the
base, contrary to the file's own note that `a` and `a_copy` should be
equal. -/
theorem expand_inverse_breaks_roundtrip :
    teqb (Tensor.expand (expand_inverse baseOne mutOnes [3] false) [3]) mutOnes = false
    ∧ (Tensor.expand (expand_inverse baseOne mutOnes [3] false) [3]).shape = mutOnes.shape
    ∧ (expand_inverse baseOne mutOnes [3] false).data [0] = 3
    ∧ mutOnes.data [0] = 1
    ∧ teqb (expand_inverse baseOne (Tensor.expand baseOne [3]) [3] false) baseOne = false :=
  ⟨by decide, by decide, by decide, by decide, by decide⟩

/-- Claim C5.  Every unsupported path (`_fw_primal`, `as_strided` and all six
sparse-layout accessors) fails unconditionally with the internal-error signal,
for every input; no successful value is ever produced. -/
theorem unsupported_inverses_always_fail :
    (∀ (base v : Tensor Int) (level : Int), _fw_primal_inverse base v level =
      Except.error "Attempted to call _fw_primal() during the functionalization pass. For now, this is not supported.")
    ∧ (∀ (base v : Tensor Int) (size stride : List Int) (so : Option Int),
        as_strided_inverse base v size stride so =
      Except.error "as_strided has not been implemented in the functionalization pass yet")
    ∧ (∀ base v : Tensor Int, _indices_inverse base v =
      Except.error "Attempted to call _indices() during the functionalization pass. For now, sparse tensors aren't supported during functionalization")
    ∧ (∀ base v : Tensor Int, _values_inverse base v =
      Except.error "Attempted to call _values() during the functionalization pass. For now, sparse tensors aren't supported during functionalization")
    ∧ (∀ base v : Tensor Int, indices_inverse base v =
      Except.error "Attempted to call indices() during the functionalization pass. For now, sparse tensors aren't supported during functionalization")
    ∧ (∀ base v : Tensor Int, values_inverse base v =
      Except.error "Attempted to call values() during the functionalization pass. For now, sparse tensors aren't supported during functionalization")
    ∧ (∀ base v : Tensor Int, crow_indices_inverse base v =
      Except.error "Attempted to call crow_indices() during the functionalization pass. For now, sparse tensors aren't supported during functionalization")
    ∧ (∀ base v : Tensor Int, col_indices_inverse base v =
      Except.error "Attempted to call col_indices() during the functionalization pass. For now, sparse tensors aren't supported during functionalization") :=
  ⟨fun _ _ _ => rfl, fun _ _ _ _ _ => rfl, fun _ _ => rfl, fun _ _ => rfl,
   fun _ _ => rfl, fun _ _ => rfl, fun _ _ => rfl, fun _ _ => rfl⟩

/-- Claim C7.  The identity-shaped inverses are direct transforms of the
mutated view alone: each one equals its specified transform of `v`, and each
one yields the same result for any two bases. -/
theorem identity_shaped_inverses_ignore_base :
    (∀ (b : Tensor Cplx) (v : Tensor Int), view_as_real_inverse b v = view_as_complex v)
    ∧ (∀ (b b2 : Tensor Cplx) (v : Tensor Int),
        view_as_real_inverse b v = view_as_real_inverse b2 v)
    ∧ (∀ (b : Tensor Int) (v : Tensor Cplx),
        view_as_complex_inverse b v = view_as_real (resolve_conj v))
    ∧ (∀ (b b2 : Tensor Int) (v : Tensor Cplx),
        view_as_complex_inverse b v = view_as_complex_inverse b2 v)
    ∧ (∀ b v : Tensor Cplx, _conj_inverse b v = v.conj)
    ∧ (∀ b b2 v : Tensor Cplx, _conj_inverse b v = _conj_inverse b2 v)
    ∧ (∀ b v : Tensor Int, _neg_view_inverse b v = v.neg)
    ∧ (∀ b b2 v : Tensor Int, _neg_view_inverse b v = _neg_view_inverse b2 v)
    ∧ (∀ b v : Tensor Int, detach_inverse b v = v)
    ∧ (∀ b b2 v : Tensor Int, detach_inverse b v = detach_inverse b2 v)
    ∧ (∀ b v : Tensor Int, alias_inverse b v = v)
    ∧ (∀ b b2 v : Tensor Int, alias_inverse b v = alias_inverse b2 v) :=
  ⟨fun _ _ => rfl, fun _ _ _ => rfl, fun _ _ => rfl, fun _ _ _ => rfl,
   fun _ _ => rfl, fun _ _ _ => rfl, fun _ _ => rfl, fun _ _ _ => rfl,
   fun _ _ => rfl, fun _ _ _ => rfl, fun _ _ => rfl, fun _ _ _ => rfl⟩

/-- Claim C6.  With a valid axis and a non-scalar base, `squeeze_inverse`
inserts a singleton axis at the normalized `dim` exactly when the base's size
there is 1, and otherwise returns the mutated view unchanged. -/
theorem squeeze_inverse_conditional (base v : Tensor Int) (dim : Int)
    (hv : wrapValid dim base.shape.length) (hb : base.shape ≠ []) :
    squeeze_inverse base v dim =
      if base.shape.getD (wrapDim dim base.shape.length) 0 = 1
      then v.unsqueeze ((wrapDim dim base.shape.length : Nat) : Int)
      else v := by
  unfold squeeze_inverse unsqueeze_to
  have h0 : 0 < base.shape.length := List.length_pos.mpr hb
  by_cases h1 : base.shape.getD (wrapDim dim base.shape.length) 0 = 1
  · rw [if_pos ⟨h0, h1⟩, if_pos h1]
  · rw [if_neg fun hc => h1 hc.2, if_neg h1]

/-- Claim C6 witness: base of shape `(1, 3)`; axis 0 has size 1 so the
singleton axis is re-inserted. -/
theorem squeeze_inverse_conditional_witness :
    wrapValid 0 (Tensor.ofList [1, 3] [7, 8, 9] (0 : Int)).shape.length
    ∧ (Tensor.ofList [1, 3] [7, 8, 9] (0 : Int)).shape ≠ []
    ∧ squeeze_inverse (Tensor.ofList [1, 3] [7, 8, 9] (0 : Int)) (Tensor.ofList [3] [70, 80, 90] 0) 0 =
        if (Tensor.ofList [1, 3] [7, 8, 9] (0 : Int)).shape.getD
            (wrapDim 0 (Tensor.ofList [1, 3] [7, 8, 9] (0 : Int)).shape.length) 0 = 1
        then (Tensor.ofList [3] [70, 80, 90] (0 : Int)).unsqueeze
            ((wrapDim 0 (Tensor.ofList [1, 3] [7, 8, 9] (0 : Int)).shape.length : Nat) : Int)
        else Tensor.ofList [3] [70, 80, 90] 0 :=
  ⟨by decide, by decide,
   squeeze_inverse_conditional (Tensor.ofList [1, 3] [7, 8, 9] 0)
     (Tensor.ofList [3] [70, 80, 90] 0) 0 (by decide) (by decide)⟩

/-- Claim C9.  For a zero-rank (scalar) base, `squeeze_inverse` returns the
mutated view unchanged for every axis index accepted by wrapping against rank
0: the singleton-insertion branch is guarded by a non-empty-shape check. -/
theorem squeeze_inverse_scalar_base (base v : Tensor Int) (dim : Int)
    (h0 : base.shape = []) (hv : wrapValid dim 0) :
    squeeze_inverse base v dim = v := by
  unfold squeeze_inverse unsqueeze_to
  rw [h0]
  exact if_neg (by simp)

/-- Claim C9 witness: a scalar base and the axis index `-1` (the most negative
index accepted by scalar wrapping). -/
theorem squeeze_inverse_scalar_base_witness :
    (Tensor.mk [] fun _ => (5 : Int)).shape = []
    ∧ wrapValid (-1) 0
    ∧ squeeze_inverse (Tensor.mk [] fun _ => (5 : Int)) (Tensor.ofList [3] [70, 80, 90] 0) (-1) =
        Tensor.ofList [3] [70, 80, 90] 0 :=
  ⟨rfl, by decide,
   squeeze_inverse_scalar_base (Tensor.mk [] fun _ => (5 : Int))
     (Tensor.ofList [3] [70, 80, 90] 0) (-1) rfl (by decide)⟩

/-- Claim C10.  The mirrored forward arguments are dead: `expand_inverse`,
`view_inverse` (shape overload) and `_reshape_alias_inverse` return the same
result for every value of the mirrored `size`/`stride`/`implicit` arguments,
and for any two bases with the same sizes. -/
theorem reinterp_inverses_ignore_forward_args (b1 b2 v : Tensor Int)
    (s1 s2 st1 st2 : List Int) (i1 i2 : Bool) (h : b1.shape = b2.shape) :
    expand_inverse b1 v s1 i1 = expand_inverse b2 v s2 i2
    ∧ view_inverse b1 v s1 = view_inverse b2 v s2
    ∧ _reshape_alias_inverse b1 v s1 st1 = _reshape_alias_inverse b2 v s2 st2 := by
  unfold expand_inverse view_inverse _reshape_alias_inverse
  rw [h]
  exact ⟨rfl, rfl, rfl⟩

/-- Claim C10 witness: two bases of equal shape `(1)` but different contents,
and two unrelated settings of each mirrored forward argument. -/
theorem reinterp_inverses_ignore_forward_args_witness :
    baseOne.shape = (Tensor.ofList [1] [2] (0 : Int)).shape
    ∧ (expand_inverse baseOne mutOnes [5] true = expand_inverse (Tensor.ofList [1] [2] 0) mutOnes [7, 7] false
       ∧ view_inverse baseOne mutOnes [5] = view_inverse (Tensor.ofList [1] [2] 0) mutOnes [7, 7]
       ∧ _reshape_alias_inverse baseOne mutOnes [5] [1] = _reshape_alias_inverse (Tensor.ofList [1] [2] 0) mutOnes [7, 7] [2]) :=
  ⟨rfl, reinterp_inverses_ignore_forward_args baseOne (Tensor.ofList [1] [2] 0) mutOnes
     [5] [7, 7] [1] [2] true false rfl⟩


/-- Claim C4.  `expand_inverse` always returns a tensor of exactly the base's
shape, and for a base of shape `(1, 5)` with a mutated view of shape `(3, 5)`
each output element is the sum of the 3 corresponding broadcast copies. -/
theorem expand_inverse_sums_broadcast (base v : Tensor Int) (size : List Int) (implicit : Bool)
    (h1 : base.shape = [1, 5]) (h2 : v.shape = [3, 5]) :
    (∀ (b w : Tensor Int) (s : List Int) (i : Bool), (expand_inverse b w s i).shape = b.shape)
    ∧ ∀ j, j < 5 → (expand_inverse base v size implicit).data [0, j]
        = v.data [0, j] + v.data [1, j] + v.data [2, j] := by
  constructor
  · intro b w s i; rfl
  · intro j hj
    unfold expand_inverse sum_to
    rw [h1, h2]
    interval_cases j
    · exact (show v.data [0, 0] + (v.data [1, 0] + (v.data [2, 0] + 0))
        = v.data [0, 0] + v.data [1, 0] + v.data [2, 0] by ring)
    · exact (show v.data [0, 1] + (v.data [1, 1] + (v.data [2, 1] + 0))
        = v.data [0, 1] + v.data [1, 1] + v.data [2, 1] by ring)
    · exact (show v.data [0, 2] + (v.data [1, 2] + (v.data [2, 2] + 0))
        = v.data [0, 2] + v.data [1, 2] + v.data [2, 2] by ring)
    · exact (show v.data [0, 3] + (v.data [1, 3] + (v.data [2, 3] + 0))
        = v.data [0, 3] + v.data [1, 3] + v.data [2, 3] by ring)
    · exact (show v.data [0, 4] + (v.data [1, 4] + (v.data [2, 4] + 0))
        = v.data [0, 4] + v.data [1, 4] + v.data [2, 4] by ring)

/-- Claim C4 witness: the concrete base `b15` of shape `(1, 5)` and mutated
view `v35` of shape `(3, 5)`. -/
theorem expand_inverse_sums_broadcast_witness :
    b15.shape = [1, 5]
    ∧ v35.shape = [3, 5]
    ∧ ((∀ (b w : Tensor Int) (s : List Int) (i : Bool), (expand_inverse b w s i).shape = b.shape)
       ∧ ∀ j, j < 5 → (expand_inverse b15 v35 [3, 5] false).data [0, j]
           = v35.data [0, j] + v35.data [1, j] + v35.data [2, j]) :=
  ⟨rfl, rfl, expand_inverse_sums_broadcast b15 v35 [3, 5] false rfl rfl⟩

/-- Claim C8.  For a base of shape `(4, 6)` and a diagonal patch of 4
elements, `diagonal_inverse` with `offset = 0, dim1 = 0, dim2 = 1` returns a
copy of the base whose 4 main-diagonal elements take the patch's values and
whose off-diagonal elements are unchanged. -/
theorem diagonal_inverse_frame (base d : Tensor Int)
    (hb : base.shape = [4, 6]) (hd : d.shape = [4]) :
    (diagonal_inverse base d 0 0 1).shape = [4, 6]
    ∧ ∀ i, i < 4 → ∀ j, j < 6 →
        (diagonal_inverse base d 0 0 1).data [i, j] =
          if j = i then d.data [i] else base.data [i, j] := by
  unfold diagonal_inverse diagonal_scatter
  constructor
  · exact hb
  · intro i hi j hj
    simp only [hb]
    show (if (j : Int) - (i : Int) = 0
        then d.data [(min (i : Int) (j : Int)).toNat] else base.data [i, j])
      = if j = i then d.data [i] else base.data [i, j]
    by_cases hji : j = i
    · subst hji
      rw [if_pos (sub_self _), if_pos rfl, min_self, Int.toNat_natCast]
    · rw [if_neg (by omega), if_neg hji]

/-- Claim C8 witness: the concrete base of shape `(4, 6)` holding `0..23` and
the diagonal patch `[100, 101, 102, 103]`. -/
theorem diagonal_inverse_frame_witness :
    (Tensor.ofList [4, 6] ((List.range 24).map Int.ofNat) 0).shape = [4, 6]
    ∧ (Tensor.ofList [4] [100, 101, 102, 103] (0 : Int)).shape = [4]
    ∧ ((diagonal_inverse (Tensor.ofList [4, 6] ((List.range 24).map Int.ofNat) 0)
          (Tensor.ofList [4] [100, 101, 102, 103] 0) 0 0 1).shape = [4, 6]
       ∧ ∀ i, i < 4 → ∀ j, j < 6 →
          (diagonal_inverse (Tensor.ofList [4, 6] ((List.range 24).map Int.ofNat) 0)
            (Tensor.ofList [4] [100, 101, 102, 103] 0) 0 0 1).data [i, j] =
            if j = i then (Tensor.ofList [4] [100, 101, 102, 103] (0 : Int)).data [i]
            else (Tensor.ofList [4, 6] ((List.range 24).map Int.ofNat) (0 : Int)).data [i, j]) :=
  ⟨rfl, rfl,
   diagonal_inverse_frame (Tensor.ofList [4, 6] ((List.range 24).map Int.ofNat) 0)
     (Tensor.ofList [4] [100, 101, 102, 103] 0) rfl rfl⟩


/-- Claim C3.  `split_inverse` scatters the view into the base at the wrapped
axis over the half-open region `[idx*split_size, min(dim_size,
(idx+1)*split_size))` with step 1, and `split_with_sizes_inverse` over
`[sum sizes[0..idx), min(dim_size, start + sizes[idx]))`; everywhere else the
base is returned unchanged. -/
theorem split_partition_regions (base v : Tensor Int) (si ss : Int) (sizes : List Int) (dim : Int)
    (hv : wrapValid dim base.shape.length) (hb : base.shape ≠ []) :
    ((split_inverse base v si ss dim).shape = base.shape
     ∧ ∀ idx : Idx,
        (split_inverse base v si ss dim).data idx =
          if si * ss ≤ (idx.getD (wrapDim dim base.shape.length) 0 : Int)
             ∧ (idx.getD (wrapDim dim base.shape.length) 0 : Int)
               < min ((base.shape.getD (wrapDim dim base.shape.length) 0 : Int)) ((si + 1) * ss)
          then v.data (idx.set (wrapDim dim base.shape.length)
              (((idx.getD (wrapDim dim base.shape.length) 0 : Int) - si * ss)).toNat)
          else base.data idx)
    ∧ ((split_with_sizes_inverse base v si sizes dim).shape = base.shape
     ∧ ∀ idx : Idx,
        (split_with_sizes_inverse base v si sizes dim).data idx =
          if (sizes.take si.toNat).sum ≤ (idx.getD (wrapDim dim base.shape.length) 0 : Int)
             ∧ (idx.getD (wrapDim dim base.shape.length) 0 : Int)
               < min ((base.shape.getD (wrapDim dim base.shape.length) 0 : Int))
                   ((sizes.take si.toNat).sum + sizes.getD si.toNat 0)
          then v.data (idx.set (wrapDim dim base.shape.length)
              (((idx.getD (wrapDim dim base.shape.length) 0 : Int) - (sizes.take si.toNat).sum)).toNat)
          else base.data idx) := by
  have hwc : wrapDim ((wrapDim dim base.shape.length : Nat) : Int) base.shape.length
      = wrapDim dim base.shape.length := wrapDim_coe _ _
  refine ⟨⟨?_, ?_⟩, ?_, ?_⟩
  · simp only [split_inverse, slice_scatter, hwc]
  · intro idx
    have hring : (si + 1) * ss = si * ss + ss := by ring
    simp only [split_inverse, slice_scatter, hwc, Int.emod_one, Int.ediv_one,
      eq_self_iff_true, and_true]
    split_ifs <;> first | rfl | omega
  · simp only [split_with_sizes_inverse, slice_scatter, hwc]
  · intro idx
    simp only [split_with_sizes_inverse, slice_scatter, hwc, foldl_add_eq_sum, zero_add,
      Int.emod_one, Int.ediv_one, eq_self_iff_true, and_true]
    split_ifs <;> first | rfl | omega

/-- Claim C3 witness: dimension size 10, fixed split size 3 at partition index
2 (region `[6, 9)`), and sizes `[2, 5, 4]` at partition index 2 (region
`[7, 10)`, clipped from the nominal end 11). -/
theorem split_partition_regions_witness :
    wrapValid 0 base10.shape.length
    ∧ base10.shape ≠ []
    ∧ (((split_inverse base10 patch3 2 3 0).shape = base10.shape
       ∧ ∀ idx : Idx,
          (split_inverse base10 patch3 2 3 0).data idx =
            if 2 * 3 ≤ (idx.getD (wrapDim 0 base10.shape.length) 0 : Int)
               ∧ (idx.getD (wrapDim 0 base10.shape.length) 0 : Int)
                 < min ((base10.shape.getD (wrapDim 0 base10.shape.length) 0 : Int)) ((2 + 1) * 3)
            then patch3.data (idx.set (wrapDim 0 base10.shape.length)
                (((idx.getD (wrapDim 0 base10.shape.length) 0 : Int) - 2 * 3)).toNat)
            else base10.data idx)
      ∧ ((split_with_sizes_inverse base10 patch3 2 [2, 5, 4] 0).shape = base10.shape
       ∧ ∀ idx : Idx,
          (split_with_sizes_inverse base10 patch3 2 [2, 5, 4] 0).data idx =
            if (([2, 5, 4] : List Int).take (2 : Int).toNat).sum
                 ≤ (idx.getD (wrapDim 0 base10.shape.length) 0 : Int)
               ∧ (idx.getD (wrapDim 0 base10.shape.length) 0 : Int)
                 < min ((base10.shape.getD (wrapDim 0 base10.shape.length) 0 : Int))
                     ((([2, 5, 4] : List Int).take (2 : Int).toNat).sum
                       + ([2, 5, 4] : List Int).getD (2 : Int).toNat 0)
            then patch3.data (idx.set (wrapDim 0 base10.shape.length)
                (((idx.getD (wrapDim 0 base10.shape.length) 0 : Int)
                  - (([2, 5, 4] : List Int).take (2 : Int).toNat).sum)).toNat)
            else base10.data idx)) :=
  ⟨by decide, by decide, split_partition_regions base10 patch3 2 3 [2, 5, 4] 0 (by decide) (by decide)⟩

theorem getD_mem_of_lt (l : List Nat) (p : Nat) (hp : p < l.length) : l.getD p 0 ∈ l := by
  rw [List.getD_eq_getElem _ _ hp]
  exact List.getElem_mem hp

theorem indexOf_eq_of_getD (l : List Nat) (j p : Nat) (hnd : l.Nodup) (hj : j < l.length)
    (h : l.getD j 0 = p) : List.indexOf p l = j := by
  have hjp : l[j] = p := by rw [← List.getD_eq_getElem l 0 hj]; exact h
  have hpl : p ∈ l := hjp ▸ List.getElem_mem hj
  have hq : List.indexOf p l < l.length := List.indexOf_lt_length.mpr hpl
  exact (List.Nodup.getElem_inj_iff hnd).mp (by rw [List.getElem_indexOf hq, hjp])

theorem permute_shape_eq (t : Tensor Int) (dims : List Int) :
    (t.permute dims).shape
      = (dims.map fun d => wrapDim d dims.length).map (fun j => t.shape.getD j 0) := rfl

theorem permute_data_eq (t : Tensor Int) (dims : List Int) (idx : Idx) :
    (t.permute dims).data idx
      = t.data ((List.range dims.length).map fun j =>
          idx.getD (List.indexOf j (dims.map fun d => wrapDim d dims.length)) 0) := rfl

theorem permute_inverse_eq (self : Tensor Int) (dims : List Int) :
    permute_inverse self dims
      = self.permute ((List.range dims.length).foldl
          (fun a i => a.set (wrapDim (dims.getD i 0) dims.length) (i : Int))
          (List.replicate dims.length 0)) := rfl

theorem getD_map_nat (l : List Nat) (f : Nat → Nat) (p : Nat) (hp : p < l.length) :
    (l.map f).getD p 0 = f (l.getD p 0) := by
  rw [List.getD_eq_getElem _ _ (by simpa using hp), List.getElem_map,
    List.getD_eq_getElem _ _ hp]

/-- Applying one permutation and then a second whose wrapped axis list is the
pointwise inverse of the first restores the original tensor. -/
theorem teq_permute_permute (x : Tensor Int) (dims dims2 : List Int)
    (hl2 : dims2.length = dims.length) (hlx : x.shape.length = dims.length)
    (hperm : (dims.map fun d => wrapDim d dims.length).Perm (List.range dims.length))
    (hinv : ∀ i, i < dims.length →
      (dims2.map fun d => wrapDim d dims2.length).getD
        ((dims.map fun d => wrapDim d dims.length).getD i 0) 0 = i) :
    teq ((x.permute dims).permute dims2) x := by
  have hwsl : (dims.map fun d => wrapDim d dims.length).length = dims.length := by simp
  have hw2sl : (dims2.map fun d => wrapDim d dims2.length).length = dims.length := by
    simp [hl2]
  have hndr : (dims.map fun d => wrapDim d dims.length).Nodup :=
    hperm.nodup_iff.mpr (List.nodup_range _)
  have hmem : ∀ j, j ∈ (dims.map fun d => wrapDim d dims.length) ↔ j < dims.length :=
    fun j => by rw [hperm.mem_iff, List.mem_range]
  have hwlt : ∀ i, i < dims.length →
      (dims.map fun d => wrapDim d dims.length).getD i 0 < dims.length := fun i hi =>
    (hmem _).mp (getD_mem_of_lt _ i (by rw [hwsl]; exact hi))
  have hsub : ∀ j, j < dims.length → j ∈ (dims2.map fun d => wrapDim d dims2.length) := by
    intro j hj
    have h2 := hinv j hj
    have hlt : (dims.map fun d => wrapDim d dims.length).getD j 0
        < (dims2.map fun d => wrapDim d dims2.length).length := by
      rw [hw2sl]; exact hwlt j hj
    rw [List.getD_eq_getElem _ _ hlt] at h2
    exact h2 ▸ List.getElem_mem hlt
  have hperm2 : (List.range dims.length).Perm (dims2.map fun d => wrapDim d dims2.length) := by
    apply List.Subperm.perm_of_length_le
    · exact List.subperm_of_subset (List.nodup_range _)
        (fun j hj => hsub j (List.mem_range.mp hj))
    · rw [hw2sl]; simp
  have hnd2 : (dims2.map fun d => wrapDim d dims2.length).Nodup :=
    hperm2.nodup_iff.mp (List.nodup_range _)
  have hmem2 : ∀ j, j ∈ (dims2.map fun d => wrapDim d dims2.length) ↔ j < dims.length :=
    fun j => by rw [← hperm2.mem_iff, List.mem_range]
  have hw2lt : ∀ k, k < dims.length →
      (dims2.map fun d => wrapDim d dims2.length).getD k 0 < dims.length := fun k hk =>
    (hmem2 _).mp (getD_mem_of_lt _ k (by rw [hw2sl]; exact hk))
  have hcomp1 : ∀ i, i < dims.length →
      (dims.map fun d => wrapDim d dims.length).getD
        ((dims2.map fun d => wrapDim d dims2.length).getD i 0) 0 = i := by
    intro i hi
    have hiw : i ∈ (dims.map fun d => wrapDim d dims.length) := (hmem i).mpr hi
    have hql : List.indexOf i (dims.map fun d => wrapDim d dims.length)
        < (dims.map fun d => wrapDim d dims.length).length := List.indexOf_lt_length.mpr hiw
    have hwq : (dims.map fun d => wrapDim d dims.length).getD
        (List.indexOf i (dims.map fun d => wrapDim d dims.length)) 0 = i := by
      rw [List.getD_eq_getElem _ _ hql]; exact List.getElem_indexOf hql
    have h2 := hinv (List.indexOf i (dims.map fun d => wrapDim d dims.length))
      (lt_of_lt_of_eq hql hwsl)
    rw [hwq] at h2
    rw [h2, hwq]
  have hcomp2 : ∀ j2, j2 < dims.length →
      List.indexOf (List.indexOf j2 (dims.map fun d => wrapDim d dims.length))
        (dims2.map fun d => wrapDim d dims2.length) = j2 := by
    intro j2 hj2
    have hjw : j2 ∈ (dims.map fun d => wrapDim d dims.length) := (hmem j2).mpr hj2
    have hpl : List.indexOf j2 (dims.map fun d => wrapDim d dims.length)
        < (dims.map fun d => wrapDim d dims.length).length := List.indexOf_lt_length.mpr hjw
    have hp : (dims.map fun d => wrapDim d dims.length).getD
        (List.indexOf j2 (dims.map fun d => wrapDim d dims.length)) 0 = j2 := by
      rw [List.getD_eq_getElem _ _ hpl]; exact List.getElem_indexOf hpl
    have h2 := hinv (List.indexOf j2 (dims.map fun d => wrapDim d dims.length))
      (lt_of_lt_of_eq hpl hwsl)
    rw [hp] at h2
    exact indexOf_eq_of_getD _ j2 _ hnd2 (by rw [hw2sl]; exact hj2) h2
  constructor
  · rw [permute_shape_eq, permute_shape_eq]
    apply List.ext_getElem (by simp [hl2, hlx])
    intro k h1 h2
    have hk : k < dims.length := by simpa [hl2] using h1
    rw [List.getElem_map,
      ← List.getD_eq_getElem (dims2.map fun d => wrapDim d dims2.length) 0
        (by rw [hw2sl]; exact hk),
      getD_map_nat _ _ _ (by rw [hwsl]; exact hw2lt k hk), hcomp1 k hk,
      List.getD_eq_getElem x.shape 0 h2]
  · intro idx hidx
    rw [permute_data_eq]
    rw [permute_data_eq]
    apply congrArg x.data
    have hidxlen : idx.length = dims.length := by
      have hh := length_of_mem_allIdx _ _ hidx
      rw [permute_shape_eq] at hh
      simpa [hl2] using hh
    apply List.ext_getElem (by simp [hidxlen])
    intro j2 h1 h2
    have hj2 : j2 < dims.length := by simpa using h1
    rw [List.getElem_map, List.getElem_range,
      getD_map_range _ _ _ (lt_of_lt_of_eq
        (lt_of_lt_of_eq (List.indexOf_lt_length.mpr ((hmem j2).mpr hj2)) hwsl) hl2.symm),
      hcomp2 j2 hj2, List.getD_eq_getElem idx 0 h2]

theorem getD_map_int_nat (l : List Int) (f : Int → Nat) (p : Nat) (hp : p < l.length) :
    (l.map f).getD p 0 = f (l.getD p 0) := by
  rw [List.getD_eq_getElem _ _ (by simpa using hp), List.getElem_map,
    List.getD_eq_getElem _ _ hp]

/-- Claim C2 (amended).  `permute_inverse` builds the inverse permutation
`dims_` (with `dims_[wrap(dims[i], rank)] = i`) and permutes by it; for every
valid axis permutation `dims`, applying `permute` with `dims` and then
`permute_inverse` with the same `dims` restores the original tensor
exactly. -/
theorem permute_inverse_after_permute (x : Tensor Int) (dims : List Int)
    (hperm : (dims.map fun d => wrapDim d dims.length).Perm (List.range dims.length))
    (hlen : dims.length = x.shape.length) :
    teq (permute_inverse (x.permute dims) dims) x := by
  rw [permute_inverse_eq]
  apply teq_permute_permute
  · rw [foldl_set_length, List.length_replicate]
  · exact hlen.symm
  · exact hperm
  · intro i hi
    have hdl : ((List.range dims.length).foldl
        (fun a i => a.set (wrapDim (dims.getD i 0) dims.length) (i : Int))
        (List.replicate dims.length 0)).length = dims.length := by
      rw [foldl_set_length, List.length_replicate]
    have hndr : (dims.map fun d => wrapDim d dims.length).Nodup :=
      hperm.nodup_iff.mpr (List.nodup_range _)
    have hwsl : (dims.map fun d => wrapDim d dims.length).length = dims.length := by simp
    have hmem : ∀ j, j ∈ (dims.map fun d => wrapDim d dims.length) ↔ j < dims.length :=
      fun j => by rw [hperm.mem_iff, List.mem_range]
    have hwlt : (dims.map fun d => wrapDim d dims.length).getD i 0 < dims.length :=
      (hmem _).mp (getD_mem_of_lt _ i (lt_of_lt_of_eq hi hwsl.symm))
    have haux : (List.range dims.length).map (fun i => wrapDim (dims.getD i 0) dims.length)
        = dims.map fun d => wrapDim d dims.length := by
      apply List.ext_getElem (by simp)
      intro k h1 h2
      rw [List.getElem_map, List.getElem_range, List.getElem_map,
        List.getD_eq_getElem dims 0 (by simpa using h2)]
    have hWi : wrapDim (dims.getD i 0) dims.length
        = (dims.map fun d => wrapDim d dims.length).getD i 0 := by
      have h1 := getD_map_range (fun i => wrapDim (dims.getD i 0) dims.length)
        dims.length i hi 0
      rw [haux] at h1
      exact h1.symm
    have hfold : ((List.range dims.length).foldl
        (fun a i => a.set (wrapDim (dims.getD i 0) dims.length) (i : Int))
        (List.replicate dims.length 0)).getD (wrapDim (dims.getD i 0) dims.length) 0
        = (i : Int) :=
      foldl_set_getD_mem (fun i => wrapDim (dims.getD i 0) dims.length)
        (List.range dims.length) (List.replicate dims.length 0) i (List.mem_range.mpr hi)
        (by rw [haux]; exact hndr)
        (by rw [List.length_replicate]
            show wrapDim (dims.getD i 0) dims.length < dims.length
            rw [hWi]; exact hwlt)
    rw [hWi] at hfold
    have hlt2 : (dims.map fun d => wrapDim d dims.length).getD i 0
        < ((List.range dims.length).foldl
            (fun a i => a.set (wrapDim (dims.getD i 0) dims.length) (i : Int))
            (List.replicate dims.length 0)).length := by
      rw [hdl]; exact hwlt
    rw [getD_map_int_nat _ _ _ hlt2, hfold]
    exact wrapDim_coe i _

/-- Claim C2 counterexample: for the 3-cycle `dims = [1, 2, 0]` on a tensor
of shape `(1, 2, 3)`, applying `permute_inverse` twice (the spec's
`permute_inverse(x, permute_inverse(x, d), d)`) does not restore the original
axis ordering: the result has shape `(2, 3, 1)`. -/
theorem permute_inverse_twice_not_identity :
    teqb (permute_inverse_view cube123 (permute_inverse cube123 cycle3) cycle3) cube123 = false
    ∧ (permute_inverse_view cube123 (permute_inverse cube123 cycle3) cycle3).shape = [2, 3, 1]
    ∧ cube123.shape = [1, 2, 3] := by
  exact ⟨by decide, by decide, by decide⟩

/-- Claim C2 witness: the transposition `dims = [1, 0]` on a concrete
`(2, 3)` tensor. -/
theorem permute_inverse_after_permute_witness :
    (([1, 0] : List Int).map fun d => wrapDim d ([1, 0] : List Int).length).Perm
      (List.range ([1, 0] : List Int).length)
    ∧ ([1, 0] : List Int).length = mat23.shape.length
    ∧ teq (permute_inverse (mat23.permute [1, 0]) [1, 0]) mat23 :=
  ⟨by decide, by decide, permute_inverse_after_permute mat23 [1, 0] (by decide) (by decide)⟩
